import Mathlib

/-!
Verification development for the naumachia off-chain transaction framework.

The Rust data model and operations are embedded shallowly:
- machine integers (`u64`, `i64`) become `Nat` / `Int` with explicit casts
  where overflow matters;
- `Vec<u8>` becomes `List Nat`;
- Rust `String` stays a Lean `String` (its bytes via UTF-8);
- fallible paths (panics via `todo!()` / `unwrap()`) become `Except`.

Components whose source file is part of the repository but not available
here (the value algebra `values.rs`, the in-memory ledger engine, the
transaction action builder) are modelled from the specification and are
marked as such in their doc comments.
-/

/-! ## Asset identifiers (src/address.rs) -/

/-- Embeds `PolicyId` from `src/address.rs`: either the base currency
(Lovelace) or a native token identified by a policy id string plus an
optional asset name. -/
inductive PolicyId where
  | Lovelace : PolicyId
  | NativeToken : String → Option String → PolicyId
deriving DecidableEq, Repr

/-- Embeds `PolicyId::ada`. -/
def PolicyId.ada : PolicyId := PolicyId.Lovelace

/-- Embeds `PolicyId::native_token`. -/
def PolicyId.native_token (id : String) (asset : Option String) : PolicyId :=
  PolicyId.NativeToken id asset

/-- Embeds `PolicyId::to_str`: `None` for Lovelace; for a native token the
policy id, with the asset name appended after a `-` separator when present. -/
def PolicyId.to_str : PolicyId → Option String
  | PolicyId.Lovelace => none
  | PolicyId.NativeToken id maybeAsset =>
    match maybeAsset with
    | some asset => some (id ++ "-" ++ asset)
    | none => some id

/-- Embeds `PolicyId::asset_name`. -/
def PolicyId.asset_name : PolicyId → Option String
  | PolicyId.Lovelace => none
  | PolicyId.NativeToken _ assetName => assetName

/-! ## Error taxonomy (spec section 7) -/

/-- Modelled from the spec: the error taxonomy of section 7 restricted to the
cases the core components below produce (`ScriptExecution`, `Balancing`,
`Arithmetic`, `OutputNotFound`). -/
inductive NauError where
  | ScriptExecution : NauError
  | Balancing : NauError
  | Arithmetic : NauError
  | OutputNotFound : NauError
deriving DecidableEq, Repr

/-! ## Value algebra

`values.rs` is part of the repository but not among the available source
files; the `Values` type and its operations are modelled from the spec
(sections 3 and 4.1). -/

/-- Modelled from the spec: `Values` (values.rs, absent from the available
sources) is a mapping from asset identifier to a non-negative `u64`
quantity with unique keys, here an association list. -/
structure Values where
  inner : List (PolicyId × Nat)
deriving DecidableEq, Repr

/-- The empty value mapping. -/
def Values.empty : Values := ⟨[]⟩

/-- Well-formedness of the association-list representation: keys are unique,
as they are in the source's hash-map representation. -/
def Values.wf (v : Values) : Prop := (v.inner.map Prod.fst).Nodup

instance (v : Values) : Decidable v.wf := by
  unfold Values.wf; infer_instance

/-- Quantity of asset `p` in an association list, `0` when absent. -/
def lookupQty (p : PolicyId) : List (PolicyId × Nat) → Nat
  | [] => 0
  | (k, q) :: rest => if k = p then q else lookupQty p rest

/-- Modelled from the spec: `Values::get`, `Some` quantity when the asset has
an entry, `None` otherwise. -/
def Values.get (v : Values) (p : PolicyId) : Option Nat :=
  match v.inner.find? (fun e => e.1 = p) with
  | some e => some e.2
  | none => none

/-- Quantity of asset `p` in `v`, `0` when absent. -/
def Values.get' (v : Values) (p : PolicyId) : Nat := lookupQty p v.inner

/-- Insert `amt` of asset `p` into an association list, summing on collision
with the existing entry and appending a fresh entry otherwise. -/
def addQty (p : PolicyId) (amt : Nat) : List (PolicyId × Nat) → List (PolicyId × Nat)
  | [] => [(p, amt)]
  | (k, q) :: rest => if k = p then (k, q + amt) :: rest else (k, q) :: addQty p amt rest

/-- Modelled from the spec: `Values::add_one_value` merges one asset quantity
into the mapping, summing on asset collision. -/
def Values.add_one_value (v : Values) (p : PolicyId) (amt : Nat) : Values :=
  ⟨addQty p amt v.inner⟩

/-- Pointwise sum of two value mappings, folding `add_one_value` over the
second one's entries. -/
def Values.add (x y : Values) : Values :=
  y.inner.foldl (fun acc e => acc.add_one_value e.1 e.2) x

/-- Sum of a list of value mappings. -/
def sumValues (l : List Values) : Values := l.foldl Values.add Values.empty

/-- Modelled from the spec: `Values::try_subtract` fails with an `Arithmetic`
error if any resulting quantity would be negative; on success it drops
zero entries and returns `none` exactly when no value remains (the
zero-residue convention chosen here, matching the withdrawal call sites
that treat `None` as "no remaining value"). -/
def Values.try_subtract (a b : Values) : Except NauError (Option Values) :=
  if b.inner.all (fun e => e.2 ≤ a.get' e.1) then
    let diff := a.inner.map (fun e => (e.1, e.2 - b.get' e.1))
    let nonzero := diff.filter (fun e => e.2 ≠ 0)
    Except.ok (if nonzero.isEmpty then none else some ⟨nonzero⟩)
  else
    Except.error NauError.Arithmetic

/-- Total quantity of asset `p` among all entries of an association list
(robust to duplicate keys, unlike `lookupQty`). -/
def entSum (p : PolicyId) : List (PolicyId × Nat) → Nat
  | [] => 0
  | (k, q) :: rest => (if k = p then q else 0) + entSum p rest

/-! ## Association-list lemmas for the value algebra -/

theorem lookupQty_eq_zero_of_not_mem (p : PolicyId) (l : List (PolicyId × Nat))
    (h : p ∉ l.map Prod.fst) : lookupQty p l = 0 := by
  induction l with
  | nil => rfl
  | cons e rest ih =>
    obtain ⟨k, q⟩ := e
    simp only [List.map_cons, List.mem_cons, not_or] at h
    simp only [lookupQty]
    rw [if_neg (fun he : k = p => h.1 he.symm)]
    exact ih h.2

theorem lookup_entry_mem (p : PolicyId) (l : List (PolicyId × Nat))
    (h : p ∈ l.map Prod.fst) : (p, lookupQty p l) ∈ l := by
  induction l with
  | nil => simp at h
  | cons e rest ih =>
    obtain ⟨k, q⟩ := e
    by_cases hk : k = p
    · simp only [lookupQty]
      rw [if_pos hk]
      subst hk
      exact List.mem_cons_self _ _
    · simp only [List.map_cons, List.mem_cons] at h
      rcases h with h | h
      · exact absurd h.symm hk
      · simp only [lookupQty]
        rw [if_neg hk]
        exact List.mem_cons_of_mem _ (ih h)

theorem entSum_eq_zero_of_not_mem (p : PolicyId) (l : List (PolicyId × Nat))
    (h : p ∉ l.map Prod.fst) : entSum p l = 0 := by
  induction l with
  | nil => rfl
  | cons e rest ih =>
    obtain ⟨k, q⟩ := e
    simp only [List.map_cons, List.mem_cons, not_or] at h
    simp only [entSum]
    rw [if_neg (fun he : k = p => h.1 he.symm), ih h.2]

theorem entSum_eq_lookupQty (p : PolicyId) (l : List (PolicyId × Nat))
    (h : (l.map Prod.fst).Nodup) : entSum p l = lookupQty p l := by
  induction l with
  | nil => rfl
  | cons e rest ih =>
    obtain ⟨k, q⟩ := e
    simp only [List.map_cons, List.nodup_cons] at h
    by_cases hk : k = p
    · simp only [entSum, lookupQty]
      rw [if_pos hk, if_pos hk, entSum_eq_zero_of_not_mem p rest (hk ▸ h.1)]
      omega
    · simp only [entSum, lookupQty]
      rw [if_neg hk, if_neg hk, ih h.2]
      omega

theorem lookupQty_addQty (p p' : PolicyId) (amt : Nat) (l : List (PolicyId × Nat)) :
    lookupQty p' (addQty p amt l) =
      lookupQty p' l + (if p' = p then amt else 0) := by
  induction l with
  | nil =>
    simp only [addQty, lookupQty]
    by_cases h : p = p'
    · rw [if_pos h, if_pos h.symm]
      omega
    · rw [if_neg h, if_neg (fun hh : p' = p => h hh.symm)]
  | cons e rest ih =>
    obtain ⟨k, q⟩ := e
    by_cases hk : k = p
    · simp only [addQty]
      rw [if_pos hk]
      simp only [lookupQty]
      by_cases hk' : k = p'
      · rw [if_pos hk', if_pos hk', if_pos (by rw [← hk', hk])]
      · rw [if_neg hk', if_neg hk',
          if_neg (fun h : p' = p => hk' (by rw [h, hk]))]
        omega
    · simp only [addQty]
      rw [if_neg hk]
      simp only [lookupQty]
      by_cases hk' : k = p'
      · rw [if_pos hk', if_pos hk',
          if_neg (fun h : p' = p => hk (by rw [← h, hk']))]
        omega
      · rw [if_neg hk', if_neg hk', ih]

theorem get'_foldl_add (l : List (PolicyId × Nat)) (x : Values) (p : PolicyId) :
    (l.foldl (fun acc e => acc.add_one_value e.1 e.2) x).get' p =
      x.get' p + entSum p l := by
  induction l generalizing x with
  | nil => simp [entSum]
  | cons e rest ih =>
    obtain ⟨k, q⟩ := e
    simp only [List.foldl_cons, entSum]
    rw [ih]
    simp only [Values.add_one_value, Values.get']
    rw [lookupQty_addQty]
    by_cases h : p = k
    · rw [if_pos h, if_pos (by rw [h])]
      omega
    · rw [if_neg h, if_neg (fun hh : k = p => h hh.symm)]
      omega

theorem get'_add (x y : Values) (p : PolicyId) :
    (x.add y).get' p = x.get' p + entSum p y.inner :=
  get'_foldl_add y.inner x p

theorem lookupQty_map_snd (g : PolicyId → Nat → Nat) (p : PolicyId)
    (l : List (PolicyId × Nat)) :
    lookupQty p (l.map (fun e => (e.1, g e.1 e.2))) =
      if p ∈ l.map Prod.fst then g p (lookupQty p l) else 0 := by
  induction l with
  | nil => simp [lookupQty]
  | cons e rest ih =>
    obtain ⟨k, q⟩ := e
    simp only [List.map_cons, lookupQty]
    by_cases hk : k = p
    · rw [if_pos hk, if_pos hk, if_pos (by simp [hk]), hk]
    · rw [if_neg hk, if_neg hk, ih]
      by_cases hm : p ∈ rest.map Prod.fst
      · rw [if_pos hm, if_pos (by simp [hm])]
      · rw [if_neg hm, if_neg (by
          simp only [List.map_cons, List.mem_cons, not_or]
          exact ⟨fun h => hk h.symm, hm⟩)]

theorem lookupQty_filter_nonzero (p : PolicyId) (l : List (PolicyId × Nat))
    (h : (l.map Prod.fst).Nodup) :
    lookupQty p (l.filter (fun e => decide (e.2 ≠ 0))) = lookupQty p l := by
  induction l with
  | nil => rfl
  | cons e rest ih =>
    obtain ⟨k, q⟩ := e
    simp only [List.map_cons, List.nodup_cons] at h
    by_cases hz : q = 0
    · rw [List.filter_cons_of_neg (by simp [hz])]
      by_cases hk : k = p
      · have hnot : p ∉ (rest.filter (fun e => decide (e.2 ≠ 0))).map Prod.fst := by
          intro hmem
          apply hk ▸ h.1
          simp only [List.mem_map] at hmem ⊢
          obtain ⟨a, ha, hap⟩ := hmem
          exact ⟨a, List.mem_of_mem_filter ha, hap⟩
        rw [lookupQty_eq_zero_of_not_mem p _ hnot]
        simp only [lookupQty]
        rw [if_pos hk, hz]
      · rw [ih h.2]
        simp only [lookupQty]
        rw [if_neg hk]
    · rw [List.filter_cons_of_pos (by simp [hz])]
      simp only [lookupQty]
      by_cases hk : k = p
      · rw [if_pos hk, if_pos hk]
      · rw [if_neg hk, if_neg hk, ih h.2]

theorem get'_le_of_all_le (a b : Values)
    (hall : b.inner.all (fun e => decide (e.2 ≤ a.get' e.1)) = true) (p : PolicyId) :
    b.get' p ≤ a.get' p := by
  by_cases hm : p ∈ b.inner.map Prod.fst
  · have hmem := lookup_entry_mem p b.inner hm
    have := List.all_eq_true.mp hall _ hmem
    simpa using this
  · rw [Values.get', lookupQty_eq_zero_of_not_mem p _ hm]
    exact Nat.zero_le _

theorem keys_map_snd (g : PolicyId → Nat → Nat) (l : List (PolicyId × Nat)) :
    (l.map (fun e => (e.1, g e.1 e.2))).map Prod.fst = l.map Prod.fst := by
  rw [List.map_map]
  rfl

/-- Evaluation of a successful `try_subtract`: the guard held and the residue
is the pointwise (non-wrapping) difference. -/
theorem try_subtract_ok_eval (a b : Values) (ha : a.wf) (r : Option Values)
    (h : a.try_subtract b = Except.ok r) :
    b.inner.all (fun e => decide (e.2 ≤ a.get' e.1)) = true ∧
    ∀ p, ((r.getD Values.empty).get' p : Int) = (a.get' p : Int) - (b.get' p : Int) := by
  unfold Values.try_subtract at h
  split at h
  case isFalse => simp at h
  case isTrue hall =>
    refine ⟨hall, ?_⟩
    intro p
    simp only [Except.ok.injEq] at h
    have hble := get'_le_of_all_le a b hall p
    have hdiff : lookupQty p (a.inner.map (fun e => (e.1, e.2 - b.get' e.1))) =
        if p ∈ a.inner.map Prod.fst then a.get' p - b.get' p else 0 :=
      lookupQty_map_snd (fun k q => q - b.get' k) p a.inner
    by_cases hemp :
        ((a.inner.map (fun e => (e.1, e.2 - b.get' e.1))).filter
          (fun e => decide (e.2 ≠ 0))).isEmpty = true
    · rw [if_pos hemp] at h
      subst h
      simp only [Option.getD_none]
      have hzero : a.get' p - b.get' p = 0 := by
        by_cases hm : p ∈ a.inner.map Prod.fst
        · by_contra hne
          have hmemd : (p, a.get' p - b.get' p) ∈
              a.inner.map (fun e => (e.1, e.2 - b.get' e.1)) := by
            have hkeq : (a.inner.map (fun e => (e.1, e.2 - b.get' e.1))).map Prod.fst =
                a.inner.map Prod.fst :=
              keys_map_snd (fun k q => q - b.get' k) a.inner
            have hkeys : p ∈ (a.inner.map (fun e => (e.1, e.2 - b.get' e.1))).map Prod.fst := by
              rw [hkeq]; exact hm
            have := lookup_entry_mem p _ hkeys
            rwa [hdiff, if_pos hm] at this
          have : (p, a.get' p - b.get' p) ∈
              ((a.inner.map (fun e => (e.1, e.2 - b.get' e.1))).filter
                (fun e => decide (e.2 ≠ 0))) :=
            List.mem_filter.mpr ⟨hmemd, by simpa using hne⟩
          rw [List.isEmpty_iff] at hemp
          rw [hemp] at this
          simp at this
        · have hza : a.get' p = 0 := lookupQty_eq_zero_of_not_mem p _ hm
          omega
      have hzb : a.get' p = b.get' p := by omega
      have hz : Values.empty.get' p = 0 := rfl
      rw [hz, hzb]
      omega
    · rw [if_neg hemp] at h
      subst h
      simp only [Option.getD_some]
      have hkeq : (a.inner.map (fun e => (e.1, e.2 - b.get' e.1))).map Prod.fst =
          a.inner.map Prod.fst :=
        keys_map_snd (fun k q => q - b.get' k) a.inner
      have hkeysd : ((a.inner.map (fun e => (e.1, e.2 - b.get' e.1))).map Prod.fst).Nodup := by
        rw [hkeq]; exact ha
      have hfilter := lookupQty_filter_nonzero p
        (a.inner.map (fun e => (e.1, e.2 - b.get' e.1))) hkeysd
      show (lookupQty p _ : Int) = _
      rw [hfilter, hdiff]
      by_cases hm : p ∈ a.inner.map Prod.fst
      · rw [if_pos hm]
        omega
      · rw [if_neg hm]
        have hza : a.get' p = 0 := lookupQty_eq_zero_of_not_mem p _ hm
        omega

/-- **C5**: `try_subtract` fails with an `Arithmetic` error exactly when some
asset quantity in `b` exceeds the corresponding quantity in `a`; whenever no
entry would go negative it succeeds, and a successful result is the exact
(never wrapping) pointwise difference. -/
theorem try_subtract_underflow_guard (a b : Values) (ha : a.wf) :
    (a.try_subtract b = Except.error NauError.Arithmetic ↔
      ∃ p q, (p, q) ∈ b.inner ∧ a.get' p < q) ∧
    ((∀ p q, (p, q) ∈ b.inner → q ≤ a.get' p) → ∃ r, a.try_subtract b = Except.ok r) ∧
    (∀ r, a.try_subtract b = Except.ok r →
      ∀ p, ((r.getD Values.empty).get' p : Int) = (a.get' p : Int) - (b.get' p : Int)) := by
  refine ⟨?_, ?_, fun r h => (try_subtract_ok_eval a b ha r h).2⟩
  · unfold Values.try_subtract
    split
    case isTrue hall =>
      simp only [List.all_eq_true] at hall
      constructor
      · intro h
        exact absurd h (by simp)
      · rintro ⟨p, q, hmem, hlt⟩
        have := hall _ hmem
        simp only [decide_eq_true_eq] at this
        omega
    case isFalse hall =>
      constructor
      · intro _
        simp only [List.all_eq_true, not_forall] at hall
        obtain ⟨e, hmem, hne⟩ := hall
        refine ⟨e.1, e.2, hmem, ?_⟩
        simp only [decide_eq_true_eq] at hne
        omega
      · intro _
        rfl
  · intro hle
    unfold Values.try_subtract
    split
    case isTrue => exact ⟨_, rfl⟩
    case isFalse hall =>
      exfalso
      apply hall
      simp only [List.all_eq_true]
      intro e hmem
      simpa using hle e.1 e.2 hmem

/-- **C5 witness**: concrete evaluation, `{Lovelace : 5} - {Lovelace : 7}`
underflows. -/
theorem try_subtract_underflow_guard_witness :
    (Values.mk [(PolicyId.Lovelace, 5)]).wf ∧
    ((Values.mk [(PolicyId.Lovelace, 5)]).try_subtract (Values.mk [(PolicyId.Lovelace, 7)]) =
        Except.error NauError.Arithmetic ↔
      ∃ p q, (p, q) ∈ [(PolicyId.Lovelace, 7)] ∧
        (Values.mk [(PolicyId.Lovelace, 5)]).get' p < q) ∧
    ((∀ p q, (p, q) ∈ [(PolicyId.Lovelace, 7)] →
        q ≤ (Values.mk [(PolicyId.Lovelace, 5)]).get' p) →
      ∃ r, (Values.mk [(PolicyId.Lovelace, 5)]).try_subtract
        (Values.mk [(PolicyId.Lovelace, 7)]) = Except.ok r) ∧
    (∀ r, (Values.mk [(PolicyId.Lovelace, 5)]).try_subtract
        (Values.mk [(PolicyId.Lovelace, 7)]) = Except.ok r →
      ∀ p, (((r.getD Values.empty).get' p : Int) =
        ((Values.mk [(PolicyId.Lovelace, 5)]).get' p : Int) -
          ((Values.mk [(PolicyId.Lovelace, 7)]).get' p : Int))) :=
  ⟨by decide, try_subtract_underflow_guard _ _ (by decide)⟩

/-- **C6**: when subtraction succeeds, adding the subtrahend back restores the
original mapping on every asset the original contains. -/
theorem sub_then_add_restores (a b : Values) (ha : a.wf) (hb : b.wf)
    (r : Option Values) (h : a.try_subtract b = Except.ok r) :
    ∀ p ∈ a.inner.map Prod.fst,
      ((r.getD Values.empty).add b).get' p = a.get' p := by
  intro p _
  have hev := try_subtract_ok_eval a b ha r h
  have hble := get'_le_of_all_le a b hev.1 p
  have hval := hev.2 p
  rw [get'_add, entSum_eq_lookupQty p b.inner hb]
  have hbg : lookupQty p b.inner = b.get' p := rfl
  rw [hbg]
  omega

/-- **C6 witness**: `({Lovelace : 5} - {Lovelace : 3}) + {Lovelace : 3}` has
5 Lovelace again. -/
theorem sub_then_add_restores_witness :
    (Values.mk [(PolicyId.Lovelace, 5)]).try_subtract (Values.mk [(PolicyId.Lovelace, 3)]) =
      Except.ok (some (Values.mk [(PolicyId.Lovelace, 2)])) ∧
    (((some (Values.mk [(PolicyId.Lovelace, 2)])).getD Values.empty).add
        (Values.mk [(PolicyId.Lovelace, 3)])).get' PolicyId.Lovelace =
      (Values.mk [(PolicyId.Lovelace, 5)]).get' PolicyId.Lovelace :=
  ⟨rfl,
    sub_then_add_restores (Values.mk [(PolicyId.Lovelace, 5)])
      (Values.mk [(PolicyId.Lovelace, 3)]) (by decide) (by decide)
      (some (Values.mk [(PolicyId.Lovelace, 2)])) rfl
      PolicyId.Lovelace (by decide)⟩

/-- **C9**: `PolicyId::to_str` is `None` exactly for Lovelace, appends the
asset name after a `-` separator for native tokens, and is consequently not
injective: `NativeToken("a", Some("b"))` and `NativeToken("a-b", None)` are
distinct identifiers with the same string form. -/
theorem policy_id_to_str_spec :
    (∀ p : PolicyId, p.to_str = none ↔ p = PolicyId.Lovelace) ∧
    (∀ id : String, (PolicyId.NativeToken id none).to_str = some id) ∧
    (∀ id asset : String,
      (PolicyId.NativeToken id (some asset)).to_str = some (id ++ "-" ++ asset)) ∧
    (PolicyId.NativeToken "a" (some "b") ≠ PolicyId.NativeToken "a-b" none ∧
      (PolicyId.NativeToken "a" (some "b")).to_str =
        (PolicyId.NativeToken "a-b" none).to_str) := by
  refine ⟨?_, fun _ => rfl, fun _ _ => rfl, by decide, by decide⟩
  intro p
  cases p with
  | Lovelace => simp [PolicyId.to_str]
  | NativeToken id maybeAsset =>
    cases maybeAsset <;> simp [PolicyId.to_str]

/-! ## The canonical term tree (src/src/scripts/raw_validator_script/plutus_data.rs)

`PlutusData` and every conversion below are embedded from the source file.
Rust's `BTreeMap<PlutusData, PlutusData>` becomes a sorted association list
ordered by the derived `Ord` of `PlutusData` (declaration order of the
variants, then lexicographic fields). The `Constr` struct is flattened into
the constructor's two arguments (tag, fields); its derived ordering is
unchanged by this. -/

/-- Embeds `BigInt` from plutus_data.rs: an inline sign/magnitude integer or
a big-endian byte-string magnitude. -/
inductive BigInt where
  | Int : Bool → Nat → BigInt
  | BigUInt : List Nat → BigInt
  | BigNInt : List Nat → BigInt
deriving DecidableEq, Repr

/-- Embeds `PlutusData` from plutus_data.rs. -/
inductive PlutusData where
  | Constr : Nat → List PlutusData → PlutusData
  | Map : List (PlutusData × PlutusData) → PlutusData
  | BigInt : BigInt → PlutusData
  | BoundedBytes : List Nat → PlutusData
  | Array : List PlutusData → PlutusData

/-- Lexicographic comparison of byte strings (Rust's `Ord` on `Vec<u8>`). -/
def cmpNatList : List Nat → List Nat → Ordering
  | [], [] => Ordering.eq
  | [], _ :: _ => Ordering.lt
  | _ :: _, [] => Ordering.gt
  | a :: la, b :: lb => (compare a b).then (cmpNatList la lb)

/-- The derived `Ord` of `BigInt`: variant order `Int < BigUInt < BigNInt`,
then field order (`neg` with `false < true`, then `val`). -/
def BigInt.cmp : BigInt → BigInt → Ordering
  | BigInt.Int n1 v1, BigInt.Int n2 v2 => (compare n1 n2).then (compare v1 v2)
  | BigInt.Int _ _, _ => Ordering.lt
  | BigInt.BigUInt _, BigInt.Int _ _ => Ordering.gt
  | BigInt.BigUInt b1, BigInt.BigUInt b2 => cmpNatList b1 b2
  | BigInt.BigUInt _, BigInt.BigNInt _ => Ordering.lt
  | BigInt.BigNInt b1, BigInt.BigNInt b2 => cmpNatList b1 b2
  | BigInt.BigNInt _, _ => Ordering.gt

mutual

/-- The derived `Ord` of `PlutusData`: declaration order of the variants
(`Constr < Map < BigInt < BoundedBytes < Array`), then lexicographic fields;
a `Map` compares as its ordered entry sequence. -/
def PlutusData.cmp : PlutusData → PlutusData → Ordering
  | PlutusData.Constr c1 f1, PlutusData.Constr c2 f2 =>
      (compare c1 c2).then (PlutusData.cmpList f1 f2)
  | PlutusData.Constr _ _, _ => Ordering.lt
  | PlutusData.Map _, PlutusData.Constr _ _ => Ordering.gt
  | PlutusData.Map m1, PlutusData.Map m2 => PlutusData.cmpPairs m1 m2
  | PlutusData.Map _, _ => Ordering.lt
  | PlutusData.BigInt _, PlutusData.Constr _ _ => Ordering.gt
  | PlutusData.BigInt _, PlutusData.Map _ => Ordering.gt
  | PlutusData.BigInt b1, PlutusData.BigInt b2 => BigInt.cmp b1 b2
  | PlutusData.BigInt _, _ => Ordering.lt
  | PlutusData.BoundedBytes _, PlutusData.Constr _ _ => Ordering.gt
  | PlutusData.BoundedBytes _, PlutusData.Map _ => Ordering.gt
  | PlutusData.BoundedBytes _, PlutusData.BigInt _ => Ordering.gt
  | PlutusData.BoundedBytes s1, PlutusData.BoundedBytes s2 => cmpNatList s1 s2
  | PlutusData.BoundedBytes _, PlutusData.Array _ => Ordering.lt
  | PlutusData.Array a1, PlutusData.Array a2 => PlutusData.cmpList a1 a2
  | PlutusData.Array _, _ => Ordering.gt

/-- Elementwise lexicographic comparison of term lists. -/
def PlutusData.cmpList : List PlutusData → List PlutusData → Ordering
  | [], [] => Ordering.eq
  | [], _ :: _ => Ordering.lt
  | _ :: _, [] => Ordering.gt
  | a :: la, b :: lb => (PlutusData.cmp a b).then (PlutusData.cmpList la lb)

/-- Elementwise lexicographic comparison of key-value sequences. -/
def PlutusData.cmpPairs :
    List (PlutusData × PlutusData) → List (PlutusData × PlutusData) → Ordering
  | [], [] => Ordering.eq
  | [], _ :: _ => Ordering.lt
  | _ :: _, [] => Ordering.gt
  | (k1, v1) :: r1, (k2, v2) :: r2 =>
      ((PlutusData.cmp k1 k2).then (PlutusData.cmp v1 v2)).then (PlutusData.cmpPairs r1 r2)

end

/-- Ordered insertion into the sorted association list standing for
`BTreeMap<PlutusData, PlutusData>`; an equal key replaces the stored value,
as `BTreeMap` insertion does. -/
def mapInsert (k v : PlutusData) :
    List (PlutusData × PlutusData) → List (PlutusData × PlutusData)
  | [] => [(k, v)]
  | (k', v') :: rest =>
    match PlutusData.cmp k k' with
    | Ordering.lt => (k, v) :: (k', v') :: rest
    | Ordering.eq => (k, v) :: rest
    | Ordering.gt => (k', v') :: mapInsert k v rest

/-- `BTreeMap::from_iter`: fold the pairs into the ordered map, later
duplicates overriding earlier ones. -/
def mapFromList (l : List (PlutusData × PlutusData)) :
    List (PlutusData × PlutusData) :=
  l.foldl (fun acc e => mapInsert e.1 e.2 acc) []

/-! ## Integer casts and small conversions (plutus_data.rs) -/

/-- The Rust cast `v as i64` applied to a `u64` value `v < 2^64`: identity
below `2^63`, otherwise the bits reinterpret as `v - 2^64`. -/
def u64AsI64 (v : Nat) : Int :=
  if v < 2 ^ 63 then (v : Int) else (v : Int) - 2 ^ 64

/-- Embeds `From<i64> for BigInt`: sign flag from `is_negative`, magnitude
from `unsigned_abs`. -/
def bigIntOfI64 (n : Int) : BigInt := BigInt.Int (decide (n < 0)) n.natAbs

/-- Embeds `From<i64> for PlutusData`. -/
def plutusDataOfI64 (n : Int) : PlutusData := PlutusData.BigInt (bigIntOfI64 n)

/-- Embeds `From<u64> for PlutusData`: the value first passes through the
`as i64` cast. -/
def plutusDataOfU64 (v : Nat) : PlutusData := PlutusData.BigInt (bigIntOfI64 (u64AsI64 v))

/-- Embeds `constr_index` (identity tag translation). -/
def constr_index (index : Nat) : Nat := index

/-- Embeds `wrap_with_constr`. -/
def wrap_with_constr (index : Nat) (data : PlutusData) : PlutusData :=
  PlutusData.Constr (constr_index index) [data]

/-- Embeds `wrap_multiple_with_constr`. -/
def wrap_multiple_with_constr (index : Nat) (data : List PlutusData) : PlutusData :=
  PlutusData.Constr (constr_index index) data

/-- Embeds `empty_constr`. -/
def empty_constr (index : Nat) : PlutusData :=
  PlutusData.Constr (constr_index index) []

/-- UTF-8 bytes of a Rust string (`str::as_bytes`). -/
def strBytes (s : String) : List Nat := s.toUTF8.toList.map (fun b => b.toNat)

/-- One hexadecimal digit. -/
def hexDigit (c : Char) : Option Nat :=
  if 48 ≤ c.toNat ∧ c.toNat ≤ 57 then some (c.toNat - 48)
  else if 97 ≤ c.toNat ∧ c.toNat ≤ 102 then some (c.toNat - 87)
  else if 65 ≤ c.toNat ∧ c.toNat ≤ 70 then some (c.toNat - 55)
  else none

/-- `hex::decode` over the character list: pairs of hex digits, failing on an
odd length or a non-hex character. -/
def hexDecodeChars : List Char → Option (List Nat)
  | [] => some []
  | [_] => none
  | c1 :: c2 :: rest => do
    let hi ← hexDigit c1
    let lo ← hexDigit c2
    let bs ← hexDecodeChars rest
    pure ((16 * hi + lo) :: bs)

/-- `hex::decode` on a string. -/
def hexDecode (s : String) : Option (List Nat) := hexDecodeChars s.data

/-- Failure modes of the encoding paths of plutus_data.rs: `todo!()`
(not-yet-implemented panics) and the `hex::decode(..).unwrap()` panic. -/
inductive EncodeError where
  | notYetImplemented : EncodeError
  | invalidHex : EncodeError
deriving DecidableEq, Repr

/-! ## Validation-context data model

The defining module (`scripts/context.rs`) is part of the repository but not
among the available sources; the shapes below are fixed by their uses in
plutus_data.rs and by spec section 3 ("Validation Context": signer, extra
signatories, time range, inputs, outputs, datums, and a purpose tag that is
either `Spend(output-ref)` or `Mint(policy-id)`). -/

/-- A public-key hash (its raw bytes). -/
structure PubKeyHash where
  bytes : List Nat
deriving DecidableEq, Repr

/-- Datum attached to a context input/output: absent, by hash, or inline. -/
inductive CtxDatum where
  | NoDatum : CtxDatum
  | DatumHash : List Nat → CtxDatum
  | InlineDatum : PlutusData → CtxDatum

/-- Multi-asset value as the context carries it: hex policy-id string to
asset-name string to `u64` amount. -/
structure CtxValue where
  inner : List (String × List (String × Nat))

/-- Reference to the output a spend consumes. -/
structure CtxOutputReference where
  transaction_id : List Nat
  output_index : Nat

/-- Payment credential of a Shelley address (pallas `ShelleyPaymentPart`). -/
inductive ShelleyPaymentPart where
  | Key : List Nat → ShelleyPaymentPart
  | Script : List Nat → ShelleyPaymentPart
deriving DecidableEq, Repr

/-- Staking credential of a Shelley address (pallas `ShelleyDelegationPart`). -/
inductive ShelleyDelegationPart where
  | Key : List Nat → ShelleyDelegationPart
  | Script : List Nat → ShelleyDelegationPart
  | Pointer : Nat → Nat → Nat → ShelleyDelegationPart
  | Null : ShelleyDelegationPart
deriving DecidableEq, Repr

/-- A pallas `Address`: the conversion only supports the Shelley form and
panics (`todo!()`) on the others, collapsed here into `NonShelley`. -/
inductive PallasAddress where
  | Shelley : ShelleyPaymentPart → ShelleyDelegationPart → PallasAddress
  | NonShelley : PallasAddress
deriving DecidableEq, Repr

/-- A produced output as the context carries it. -/
structure CtxOutput where
  address : PallasAddress
  value : CtxValue
  datum : CtxDatum
  reference_script : Option (List Nat)

/-- A consumed input as the context carries it. -/
structure Input where
  transaction_id : List Nat
  output_index : Nat
  address : PallasAddress
  value : CtxValue
  datum : CtxDatum
  reference_script : Option (List Nat)

/-- The script purpose tag. -/
inductive CtxScriptPurpose where
  | Mint : List Nat → CtxScriptPurpose
  | Spend : CtxOutputReference → CtxScriptPurpose

/-- Valid time range: optional lower and upper bounds, each an `i64` with an
inclusivity flag. -/
structure ValidRange where
  lower : Option (Int × Bool)
  upper : Option (Int × Bool)

/-- The full validation context handed to `From<TxContext> for PlutusData`. -/
structure TxContext where
  signer : PubKeyHash
  extra_signatories : List PubKeyHash
  range : ValidRange
  inputs : List Input
  outputs : List CtxOutput
  datums : List (List Nat × PlutusData)
  purpose : CtxScriptPurpose

/-! ## Encoding the context into the term tree (plutus_data.rs) -/

/-- Embeds `From<PubKeyHash> for PlutusData`. -/
def pubKeyHashToPlutusData (value : PubKeyHash) : PlutusData :=
  PlutusData.BoundedBytes value.bytes

/-- Embeds `From<Option<T>> for PlutusData` at `T = Vec<u8>`: `Some` wraps in
tag 0, `None` is the empty tag-1 constructor. -/
def optionBytesToPlutusData : Option (List Nat) → PlutusData
  | none => PlutusData.Constr 1 []
  | some inner => PlutusData.Constr 0 [PlutusData.BoundedBytes inner]

/-- Embeds `From<Address> for PlutusData`: a Shelley address becomes a
payment/staking credential pair; the non-Shelley arms are `todo!()`. -/
def addressToPlutusData : PallasAddress → Except EncodeError PlutusData
  | PallasAddress.Shelley payment_part stake_part =>
    let payment_part_plutus_data :=
      match payment_part with
      | ShelleyPaymentPart.Key payment_keyhash =>
          wrap_with_constr 0 (PlutusData.BoundedBytes payment_keyhash)
      | ShelleyPaymentPart.Script script_hash =>
          wrap_with_constr 1 (PlutusData.BoundedBytes script_hash)
    let stake_part_plutus_data :=
      match stake_part with
      | ShelleyDelegationPart.Key stake_keyhash =>
          wrap_with_constr 0 (wrap_with_constr 0 (PlutusData.BoundedBytes stake_keyhash))
      | ShelleyDelegationPart.Script script_keyhash =>
          wrap_with_constr 0 (wrap_with_constr 1 (PlutusData.BoundedBytes script_keyhash))
      | ShelleyDelegationPart.Pointer slot txIdx certIdx =>
          wrap_with_constr 0 (wrap_multiple_with_constr 1
            [plutusDataOfU64 slot, plutusDataOfU64 txIdx, plutusDataOfU64 certIdx])
      | ShelleyDelegationPart.Null => empty_constr 1
    Except.ok (wrap_multiple_with_constr 0 [payment_part_plutus_data, stake_part_plutus_data])
  | PallasAddress.NonShelley => Except.error EncodeError.notYetImplemented

/-- Embeds `From<CtxValue> for PlutusData`: hex-decode each policy id
(an `unwrap` panic on bad hex), asset names as raw bytes, amounts through
the `u64 as i64` cast, both levels collected into ordered maps. -/
def ctxValueToPlutusData (value : CtxValue) : Except EncodeError PlutusData := do
  let converted_inner ← value.inner.mapM (fun e => do
    match hexDecode e.1 with
    | none => throw EncodeError.invalidHex
    | some bs =>
      let assets := mapFromList (e.2.map (fun a =>
        (PlutusData.BoundedBytes (strBytes a.1),
         PlutusData.BigInt (bigIntOfI64 (u64AsI64 a.2)))))
      pure (PlutusData.BoundedBytes bs, PlutusData.Map assets))
  pure (PlutusData.Map (mapFromList converted_inner))

/-- Embeds `From<CtxDatum> for PlutusData`. -/
def ctxDatumToPlutusData : CtxDatum → PlutusData
  | CtxDatum.NoDatum => PlutusData.Constr 0 []
  | CtxDatum.DatumHash hash => PlutusData.Constr 1 [PlutusData.BoundedBytes hash]
  | CtxDatum.InlineDatum data => PlutusData.Constr 2 [data]

/-- Embeds `From<CtxOutputReference> for PlutusData`; the output index goes
through the `u64 as i64` cast. -/
def ctxOutputReferenceToPlutusData (out_ref : CtxOutputReference) : PlutusData :=
  PlutusData.Constr 0
    [wrap_with_constr 0 (PlutusData.BoundedBytes out_ref.transaction_id),
     PlutusData.BigInt (bigIntOfI64 (u64AsI64 out_ref.output_index))]

/-- Embeds `From<CtxOutput> for PlutusData`. -/
def ctxOutputToPlutusData (output : CtxOutput) : Except EncodeError PlutusData := do
  let address ← addressToPlutusData output.address
  let value ← ctxValueToPlutusData output.value
  let datum := ctxDatumToPlutusData output.datum
  let reference_script := optionBytesToPlutusData output.reference_script
  pure (PlutusData.Constr 0 [address, value, datum, reference_script])

/-- Embeds `From<Input> for PlutusData`: the out-ref/output pair. -/
def inputToPlutusData (input : Input) : Except EncodeError PlutusData := do
  let output_reference := ctxOutputReferenceToPlutusData
    ⟨input.transaction_id, input.output_index⟩
  let output ← ctxOutputToPlutusData
    ⟨input.address, input.value, input.datum, input.reference_script⟩
  pure (PlutusData.Constr 0 [output_reference, output])

/-- Embeds `no_time_bound`: the always-true interval, negative to positive
infinity with both closure markers true. -/
def no_time_bound : PlutusData :=
  PlutusData.Constr 0
    [PlutusData.Constr 0
      [PlutusData.Constr 0 [],
       PlutusData.Constr 1 []],
     PlutusData.Constr 0
      [PlutusData.Constr 2 [],
       PlutusData.Constr 1 []]]

/-- Embeds `lower_bound`: `[bound, +inf)` with the inclusivity flag as the
lower closure marker. -/
def lower_bound (bound : Int) (is_inclusive : Bool) : PlutusData :=
  let closure :=
    if is_inclusive then PlutusData.Constr 1 []
    else PlutusData.Constr 0 []
  PlutusData.Constr 0
    [PlutusData.Constr 0
      [PlutusData.Constr 1 [PlutusData.BigInt (bigIntOfI64 bound)],
       closure],
     PlutusData.Constr 0
      [PlutusData.Constr 2 [],
       PlutusData.Constr 1 []]]

/-- Embeds `From<ValidRange> for PlutusData`: the two `todo!()` arms
(upper-only and both-bounded) become `notYetImplemented` failures. -/
def validRangeToPlutusData (value : ValidRange) : Except EncodeError PlutusData :=
  match value.lower, value.upper with
  | none, none => Except.ok no_time_bound
  | some (bound, is_inclusive), none => Except.ok (lower_bound bound is_inclusive)
  | none, some _ => Except.error EncodeError.notYetImplemented
  | some _, some _ => Except.error EncodeError.notYetImplemented

/-- The purpose arm of `From<TxContext> for PlutusData` (inline match in the
source): `Mint` wraps the policy id in tag 0, `Spend` wraps the out-ref in
tag 1. -/
def ctxScriptPurposeToPlutusData : CtxScriptPurpose → PlutusData
  | CtxScriptPurpose.Mint policy_id =>
      wrap_with_constr 0 (PlutusData.BoundedBytes policy_id)
  | CtxScriptPurpose.Spend out_ref =>
      wrap_with_constr 1 (ctxOutputReferenceToPlutusData out_ref)

/-- Embeds `From<TxContext> for PlutusData`: the transaction-info constructor
with its twelve fields in source order, paired with the script purpose. -/
def txContextToPlutusData (ctx : TxContext) : Except EncodeError PlutusData := do
  let inputs := PlutusData.Array (← ctx.inputs.mapM inputToPlutusData)
  let reference_inputs := PlutusData.Array []
  let outputs := PlutusData.Array (← ctx.outputs.mapM ctxOutputToPlutusData)
  let fee := PlutusData.Map
    [(PlutusData.BoundedBytes [],
      PlutusData.Map [(PlutusData.BoundedBytes [], plutusDataOfI64 999)])]
  let mint := PlutusData.Map
    [(PlutusData.BoundedBytes [],
      PlutusData.Map [(PlutusData.BoundedBytes [], plutusDataOfI64 0)])]
  let dcert := PlutusData.Array []
  let wdrl := PlutusData.Map []
  let valid_range ← validRangeToPlutusData ctx.range
  let signers :=
    ctx.extra_signatories.map pubKeyHashToPlutusData ++ [pubKeyHashToPlutusData ctx.signer]
  let signatories := PlutusData.Array signers
  let redeemers := PlutusData.Map []
  let data := PlutusData.Map
    (mapFromList (ctx.datums.map (fun e => (PlutusData.BoundedBytes e.1, e.2))))
  let id := wrap_with_constr 0 (PlutusData.BoundedBytes [])
  let tx_info := PlutusData.Constr 0
    [inputs, reference_inputs, outputs, fee, mint, dcert, wdrl, valid_range,
     signatories, redeemers, data, id]
  let purpose := ctxScriptPurposeToPlutusData ctx.purpose
  pure (PlutusData.Constr 0 [tx_info, purpose])

/-! ## Claims about the encoder -/

/-- **C1**: a successful context encoding is the pair of a transaction-info
constructor (tag 0) whose twelve fields appear in the fixed order inputs,
reference-inputs (an empty array), outputs, fee, mint, certificates,
withdrawals, valid-range, signatories, redeemers, datums-by-hash,
placeholder id, and the purpose; the signatories array is the extra
signatories in order followed by the primary signer last. -/
theorem tx_info_field_order (ctx : TxContext) (d : PlutusData)
    (h : txContextToPlutusData ctx = Except.ok d) :
    ∃ ins outs range,
      ctx.inputs.mapM inputToPlutusData = Except.ok ins ∧
      ctx.outputs.mapM ctxOutputToPlutusData = Except.ok outs ∧
      validRangeToPlutusData ctx.range = Except.ok range ∧
      d = PlutusData.Constr 0
        [PlutusData.Constr 0
          [PlutusData.Array ins,
           PlutusData.Array [],
           PlutusData.Array outs,
           PlutusData.Map
             [(PlutusData.BoundedBytes [],
               PlutusData.Map [(PlutusData.BoundedBytes [], plutusDataOfI64 999)])],
           PlutusData.Map
             [(PlutusData.BoundedBytes [],
               PlutusData.Map [(PlutusData.BoundedBytes [], plutusDataOfI64 0)])],
           PlutusData.Array [],
           PlutusData.Map [],
           range,
           PlutusData.Array
             (ctx.extra_signatories.map pubKeyHashToPlutusData ++
               [pubKeyHashToPlutusData ctx.signer]),
           PlutusData.Map [],
           PlutusData.Map
             (mapFromList (ctx.datums.map (fun e => (PlutusData.BoundedBytes e.1, e.2)))),
           wrap_with_constr 0 (PlutusData.BoundedBytes [])],
         ctxScriptPurposeToPlutusData ctx.purpose] := by
  unfold txContextToPlutusData at h
  cases hins : ctx.inputs.mapM inputToPlutusData with
  | error e =>
    rw [hins] at h
    simp [Bind.bind, Except.bind] at h
  | ok ins =>
    rw [hins] at h
    cases houts : ctx.outputs.mapM ctxOutputToPlutusData with
    | error e =>
      rw [houts] at h
      simp [Bind.bind, Except.bind] at h
    | ok outs =>
      rw [houts] at h
      cases hrange : validRangeToPlutusData ctx.range with
      | error e =>
        rw [hrange] at h
        simp [Bind.bind, Except.bind] at h
      | ok range =>
        rw [hrange] at h
        simp only [Bind.bind, Except.bind, pure, Except.pure, Except.ok.injEq] at h
        exact ⟨ins, outs, range, rfl, rfl, rfl, h.symm⟩

/-- A small concrete context used to exercise `tx_info_field_order`. -/
def c1ExampleCtx : TxContext :=
  ⟨⟨[1]⟩, [⟨[2]⟩], ⟨none, none⟩, [], [], [], CtxScriptPurpose.Mint [7]⟩

/-- **C1 witness**: the concrete minimal context encodes successfully, and
the theorem applies to it. -/
theorem tx_info_field_order_witness :
    ∃ d, txContextToPlutusData c1ExampleCtx = Except.ok d ∧
      ∃ ins outs range,
        c1ExampleCtx.inputs.mapM inputToPlutusData = Except.ok ins ∧
        c1ExampleCtx.outputs.mapM ctxOutputToPlutusData = Except.ok outs ∧
        validRangeToPlutusData c1ExampleCtx.range = Except.ok range ∧
        d = PlutusData.Constr 0
          [PlutusData.Constr 0
            [PlutusData.Array ins,
             PlutusData.Array [],
             PlutusData.Array outs,
             PlutusData.Map
               [(PlutusData.BoundedBytes [],
                 PlutusData.Map [(PlutusData.BoundedBytes [], plutusDataOfI64 999)])],
             PlutusData.Map
               [(PlutusData.BoundedBytes [],
                 PlutusData.Map [(PlutusData.BoundedBytes [], plutusDataOfI64 0)])],
             PlutusData.Array [],
             PlutusData.Map [],
             range,
             PlutusData.Array
               (c1ExampleCtx.extra_signatories.map pubKeyHashToPlutusData ++
                 [pubKeyHashToPlutusData c1ExampleCtx.signer]),
             PlutusData.Map [],
             PlutusData.Map
               (mapFromList
                 (c1ExampleCtx.datums.map (fun e => (PlutusData.BoundedBytes e.1, e.2)))),
             wrap_with_constr 0 (PlutusData.BoundedBytes [])],
           ctxScriptPurposeToPlutusData c1ExampleCtx.purpose] :=
  ⟨_, rfl, tx_info_field_order c1ExampleCtx _ rfl⟩

/-- **C4**: the no-bound range encodes as the always-true interval (negative
infinity to positive infinity, both closed), a lower-only bound as
`[bound, +inf)` with the inclusivity flag as the lower closure marker, and
the upper-only and both-bounded shapes fail with the not-yet-implemented
error instead of producing an interval. -/
theorem valid_range_encoding :
    (validRangeToPlutusData ⟨none, none⟩ =
      Except.ok (PlutusData.Constr 0
        [PlutusData.Constr 0 [PlutusData.Constr 0 [], PlutusData.Constr 1 []],
         PlutusData.Constr 0 [PlutusData.Constr 2 [], PlutusData.Constr 1 []]])) ∧
    (∀ (b : Int) (incl : Bool),
      validRangeToPlutusData ⟨some (b, incl), none⟩ =
        Except.ok (PlutusData.Constr 0
          [PlutusData.Constr 0
            [PlutusData.Constr 1 [PlutusData.BigInt (bigIntOfI64 b)],
             if incl then PlutusData.Constr 1 [] else PlutusData.Constr 0 []],
           PlutusData.Constr 0 [PlutusData.Constr 2 [], PlutusData.Constr 1 []]])) ∧
    (∀ (b : Int) (incl : Bool),
      validRangeToPlutusData ⟨none, some (b, incl)⟩ =
        Except.error EncodeError.notYetImplemented) ∧
    (∀ (bl bu : Int) (il iu : Bool),
      validRangeToPlutusData ⟨some (bl, il), some (bu, iu)⟩ =
        Except.error EncodeError.notYetImplemented) := by
  refine ⟨rfl, fun b incl => ?_, fun b incl => rfl, fun bl bu il iu => rfl⟩
  cases incl <;> rfl

/-- **C8**: the context encoding is deterministic: two runs of the conversion
on equal contexts yield identical term trees. -/
theorem context_encoding_deterministic (c1 c2 : TxContext) (h : c1 = c2) :
    txContextToPlutusData c1 = txContextToPlutusData c2 := by
  rw [h]

/-- A small concrete context used to exercise `context_encoding_deterministic`. -/
def c8ExampleCtx : TxContext :=
  ⟨⟨[3]⟩, [], ⟨some (42, true), none⟩,
   [⟨[9], 0, PallasAddress.Shelley (ShelleyPaymentPart.Key [4]) ShelleyDelegationPart.Null,
     ⟨[("", [("t", 5)])]⟩, CtxDatum.NoDatum, none⟩],
   [], [], CtxScriptPurpose.Spend ⟨[9], 0⟩⟩

/-- **C8 witness**: the theorem applied at a concrete context. -/
theorem context_encoding_deterministic_witness :
    txContextToPlutusData c8ExampleCtx = txContextToPlutusData c8ExampleCtx :=
  context_encoding_deterministic c8ExampleCtx c8ExampleCtx rfl

/-- The largest `u64` value the `as i64` cast preserves. -/
def i64MaxNat : Nat := 2 ^ 63 - 1

/-- **C10**: every integer placed into the term tree passes through the
`u64 as i64` cast: a quantity up to `i64::MAX` encodes as the same
non-negative integer, a larger one reinterprets modulo `2^64` as a negative
integer; and the asset amounts of the `CtxValue` encoding go through that
same cast. -/
theorem u64_cast_in_encoding (v : Nat) (hv : v < 2 ^ 64) :
    (v ≤ i64MaxNat →
      plutusDataOfU64 v = PlutusData.BigInt (BigInt.Int false v)) ∧
    (i64MaxNat < v →
      plutusDataOfU64 v = PlutusData.BigInt (BigInt.Int true (2 ^ 64 - v)) ∧
      0 < 2 ^ 64 - v ∧
      -(((2 ^ 64 - v : Nat) : Int)) = (v : Int) - 2 ^ 64 ∧
      (v : Int) - 2 ^ 64 < 0) ∧
    (∀ an : String,
      ctxValueToPlutusData ⟨[("", [(an, v)])]⟩ =
        Except.ok (PlutusData.Map
          [(PlutusData.BoundedBytes [],
            PlutusData.Map
              [(PlutusData.BoundedBytes (strBytes an), plutusDataOfU64 v)])])) := by
  unfold i64MaxNat
  refine ⟨?_, ?_, fun an => rfl⟩
  · intro hle
    unfold plutusDataOfU64 bigIntOfI64 u64AsI64
    rw [if_pos (by omega : v < 2 ^ 63)]
    have hnn : ¬ ((v : Int) < 0) := by
      have : (0 : Int) ≤ (v : Int) := Int.ofNat_nonneg v
      omega
    rw [decide_eq_false hnn, Int.natAbs_ofNat]
  · intro hgt
    have hmpos : 0 < 2 ^ 64 - v := by omega
    have hneg : u64AsI64 v = -(((2 ^ 64 - v : Nat) : Int)) := by
      unfold u64AsI64
      rw [if_neg (by omega)]
      push_cast
      omega
    have hlt : -(((2 ^ 64 - v : Nat) : Int)) < 0 := by
      have : (0 : Int) < ((2 ^ 64 - v : Nat) : Int) := by exact_mod_cast hmpos
      omega
    refine ⟨?_, hmpos, ?_, ?_⟩
    · unfold plutusDataOfU64 bigIntOfI64
      rw [hneg, decide_eq_true hlt, Int.natAbs_neg, Int.natAbs_ofNat]
    · push_cast
      omega
    · have : (v : Int) < (2 : Int) ^ 64 := by exact_mod_cast hv
      omega

/-- **C10 witness**: the cast at `2^63`, just past `i64::MAX`. -/
theorem u64_cast_in_encoding_witness :
    plutusDataOfU64 (2 ^ 63) = PlutusData.BigInt (BigInt.Int true (2 ^ 64 - 2 ^ 63)) ∧
    0 < 2 ^ 64 - (2 ^ 63 : Nat) ∧
    -(((2 ^ 64 - 2 ^ 63 : Nat) : Int)) = ((2 ^ 63 : Nat) : Int) - 2 ^ 64 ∧
    ((2 ^ 63 : Nat) : Int) - 2 ^ 64 < 0 :=
  (u64_cast_in_encoding (2 ^ 63) (by decide)).2.1 (by decide)

/-! ## Output model (src/src/output.rs) -/

/-- Embeds `OutputId` from src/output.rs: the (producing transaction hash,
index) pair. -/
structure OutputId where
  tx_hash : List Nat
  index : Nat
deriving DecidableEq, Repr

/-- Embeds `OutputId::new`. -/
def OutputId.new (tx_hash : List Nat) (index : Nat) : OutputId := ⟨tx_hash, index⟩

/-- Embeds `UnbuiltOutput` from src/output.rs: a pre-submission output with
no identity yet. Addresses are the pallas addresses of the embedding. -/
inductive UnbuiltOutput (Datum : Type) where
  | Wallet : PallasAddress → Values → UnbuiltOutput Datum
  | Validator : PallasAddress → Values → Datum → UnbuiltOutput Datum

/-- Embeds `UnbuiltOutput::owner`. -/
def UnbuiltOutput.owner : UnbuiltOutput Datum → PallasAddress
  | UnbuiltOutput.Wallet owner _ => owner
  | UnbuiltOutput.Validator script_address _ _ => script_address

/-- Embeds `UnbuiltOutput::values`. -/
def UnbuiltOutput.values : UnbuiltOutput Datum → Values
  | UnbuiltOutput.Wallet _ values => values
  | UnbuiltOutput.Validator _ values _ => values

/-- Embeds `Output` from src/output.rs: a committed output carrying its
`OutputId`. -/
inductive Output (Datum : Type) where
  | Wallet : OutputId → PallasAddress → Values → Output Datum
  | Validator : OutputId → PallasAddress → Values → Datum → Output Datum

/-- Embeds `Output::new_wallet`: the identity is minted from the producing
transaction hash and index. -/
def Output.new_wallet (tx_hash : List Nat) (index : Nat) (owner : PallasAddress)
    (values : Values) : Output Datum :=
  Output.Wallet (OutputId.new tx_hash index) owner values

/-- Embeds `Output::new_validator`. -/
def Output.new_validator (tx_hash : List Nat) (index : Nat) (owner : PallasAddress)
    (values : Values) (datum : Datum) : Output Datum :=
  Output.Validator (OutputId.new tx_hash index) owner values datum

/-- Embeds `Output::id`. -/
def Output.id : Output Datum → OutputId
  | Output.Wallet id _ _ => id
  | Output.Validator id _ _ _ => id

/-- Embeds `Output::owner`. -/
def Output.owner : Output Datum → PallasAddress
  | Output.Wallet _ owner _ => owner
  | Output.Validator _ owner _ _ => owner

/-- Embeds `Output::values`. -/
def Output.values : Output Datum → Values
  | Output.Wallet _ _ values => values
  | Output.Validator _ _ values _ => values

/-- Embeds `Output::datum`. -/
def Output.datum : Output Datum → Option Datum
  | Output.Wallet _ _ _ => none
  | Output.Validator _ _ _ datum => some datum

/-! ## In-memory ledger engine

The engine's source (the in-memory `LedgerClient` implementation) is part of
the repository but not among the available sources; everything below is
modelled from spec sections 4.6 and 5. Datums and redeemers are opaque and
monomorphised to `Nat`; a validator is its `execute` capability, a boolean
predicate over datum, redeemer and the re-derived spend context. -/

/-- Modelled from the spec: the context the engine re-derives for one spend
(the signer plus the spent output reference); the full canonical encoding of
section 4.4 is the term tree built above. -/
structure SpendCtx where
  signer : PallasAddress
  spent : OutputId
deriving DecidableEq, Repr

/-- Modelled from the spec: one declared script spend — the output to
consume, the redeemer, and the guarding validator's `execute`. -/
structure SpendDecl where
  output_id : OutputId
  redeemer : Nat
  validator : Nat → Nat → SpendCtx → Bool

/-- Modelled from the spec: a balanced, submittable transaction — script
spends, plain wallet spends, declared new outputs, and the valid range
(kept for context re-derivation; the tie-break already applied). -/
structure BuiltTx where
  spends : List SpendDecl
  walletSpends : List OutputId
  outputs : List (UnbuiltOutput Nat)
  range : ValidRange

/-- Modelled from the spec (4.6): the engine state — the UTXO set, the
current signer, and the counter driving the simulated transaction hash
(injective by construction, never random). -/
structure InMemoryLedger where
  utxos : List (Output Nat)
  signer : PallasAddress
  txCounter : Nat

/-- Look up a UTXO by id. -/
def lookupUtxo (l : InMemoryLedger) (oid : OutputId) : Option (Output Nat) :=
  l.utxos.find? (fun o => o.id = oid)

/-- Modelled from the spec: `all_outputs_at_address`. -/
def allOutputsAt (l : InMemoryLedger) (addr : PallasAddress) : List (Output Nat) :=
  l.utxos.filter (fun o => o.owner = addr)

/-- Modelled from the spec (4.6): validate one declared script spend — the
UTXO must exist, and when it is script-locked the validator's `execute`
must accept. -/
def validateSpend (l : InMemoryLedger) (s : SpendDecl) : Except NauError Unit :=
  match lookupUtxo l s.output_id with
  | none => Except.error NauError.OutputNotFound
  | some (Output.Wallet _ _ _) => Except.ok ()
  | some (Output.Validator _ _ _ datum) =>
    if s.validator datum s.redeemer ⟨l.signer, s.output_id⟩ then Except.ok ()
    else Except.error NauError.ScriptExecution

/-- Validate every declared script spend, first failure aborting. -/
def validateSpends (l : InMemoryLedger) : List SpendDecl → Except NauError Unit
  | [] => Except.ok ()
  | s :: rest =>
    match validateSpend l s with
    | Except.error e => Except.error e
    | Except.ok _ => validateSpends l rest

/-- Modelled from the spec (4.6): a plain wallet spend must reference an
existing, wallet-owned UTXO; a script-locked UTXO cannot be spent without
its validator. -/
def validateWalletSpend (l : InMemoryLedger) (oid : OutputId) : Except NauError Unit :=
  match lookupUtxo l oid with
  | none => Except.error NauError.OutputNotFound
  | some (Output.Wallet _ _ _) => Except.ok ()
  | some (Output.Validator _ _ _ _) => Except.error NauError.ScriptExecution

/-- Validate every declared wallet spend, first failure aborting. -/
def validateWalletSpends (l : InMemoryLedger) : List OutputId → Except NauError Unit
  | [] => Except.ok ()
  | oid :: rest =>
    match validateWalletSpend l oid with
    | Except.error e => Except.error e
    | Except.ok _ => validateWalletSpends l rest

/-- Commit one declared output at its index: the only place an `OutputId`
is minted, from the simulated transaction hash and the declaration index. -/
def commitOne (tx_hash : List Nat) (index : Nat) : UnbuiltOutput Nat → Output Nat
  | UnbuiltOutput.Wallet owner values => Output.new_wallet tx_hash index owner values
  | UnbuiltOutput.Validator owner values datum =>
      Output.new_validator tx_hash index owner values datum

/-- Modelled from the spec (4.6): the committing half of `issue` — remove
every consumed UTXO, insert every declared output with a fresh id in
declaration order, and advance the hash counter. -/
def commitTx (l : InMemoryLedger) (tx : BuiltTx) : InMemoryLedger :=
  let tx_hash := [l.txCounter]
  let consumed := tx.spends.map (fun s => s.output_id) ++ tx.walletSpends
  let remaining := l.utxos.filter (fun o => decide (o.id ∉ consumed))
  let newOutputs := tx.outputs.enum.map (fun e => commitOne tx_hash e.1 e.2)
  ⟨remaining ++ newOutputs, l.signer, l.txCounter + 1⟩

/-- Modelled from the spec (4.6): `issue` — validate every declared spend
against the current UTXO set (invoking `execute` when the owner is a script
address), and only then commit atomically; any rejection aborts the whole
submission before any state change. Returns the simulated hash. -/
def issue (l : InMemoryLedger) (tx : BuiltTx) :
    Except NauError (InMemoryLedger × List Nat) :=
  match validateSpends l tx.spends with
  | Except.error e => Except.error e
  | Except.ok _ =>
    match validateWalletSpends l tx.walletSpends with
    | Except.error e => Except.error e
    | Except.ok _ => Except.ok (commitTx l tx, [l.txCounter])

/-! ## Transaction action builder

The builder's source (`TxActions::to_unbuilt_tx` and the selection module)
is part of the repository but not among the available sources; the
definitions below are modelled from spec section 4.5. -/

/-- Modelled from the spec (section 3, "Action"): one desired effect
(named `TxAction` here to avoid clashing with an unrelated library name).
`RedeemScriptOutput` and `SpecificInput` carry the full output they pin,
as the source actions do. -/
inductive TxAction where
  | InitScriptOutput : PallasAddress → Nat → Values → TxAction
  | RedeemScriptOutput : Output Nat → Nat → (Nat → Nat → SpendCtx → Bool) → TxAction
  | Mint : Nat → Option String → Nat → String → TxAction
  | SpecificInput : Output Nat → TxAction
  | ValidRange : Option (Int × Bool) → Option (Int × Bool) → TxAction

/-- The script spends declared by the actions (every `RedeemScriptOutput`). -/
def scriptSpends (actions : List TxAction) : List SpendDecl :=
  actions.filterMap (fun a =>
    match a with
    | TxAction.RedeemScriptOutput output redeemer validator =>
        some ⟨output.id, redeemer, validator⟩
    | _ => none)

/-- The explicitly pinned wallet inputs (every `SpecificInput`). -/
def specificInputIds (actions : List TxAction) : List OutputId :=
  actions.filterMap (fun a =>
    match a with
    | TxAction.SpecificInput output => some output.id
    | _ => none)

/-- Every id the actions already require as an input. -/
def requiredInputIds (actions : List TxAction) : List OutputId :=
  (scriptSpends actions).map (fun s => s.output_id) ++ specificInputIds actions

/-- The values the required inputs already supply. -/
def requiredInputValues (actions : List TxAction) : List Values :=
  actions.filterMap (fun a =>
    match a with
    | TxAction.RedeemScriptOutput output _ _ => some output.values
    | TxAction.SpecificInput output => some output.values
    | _ => none)

/-- The required new script outputs (every `InitScriptOutput`). -/
def initOutputs (actions : List TxAction) : List (UnbuiltOutput Nat) :=
  actions.filterMap (fun a =>
    match a with
    | TxAction.InitScriptOutput address datum values =>
        some (UnbuiltOutput.Validator address values datum)
    | _ => none)

/-- The total minted value declared by the actions. -/
def mintedValue (actions : List TxAction) : Values :=
  actions.foldl (fun acc a =>
    match a with
    | TxAction.Mint amount asset_name _ policy =>
        acc.add_one_value (PolicyId.NativeToken policy asset_name) amount
    | _ => acc) Values.empty

/-- The declared valid range; the last declaration wins (the documented
tie-break). -/
def lastValidRange (actions : List TxAction) : ValidRange :=
  actions.foldl (fun acc a =>
    match a with
    | TxAction.ValidRange lower upper => ⟨lower, upper⟩
    | _ => acc) ⟨none, none⟩

/-- Total value supplied before wallet selection: required inputs plus
mints. -/
def suppliedValue (actions : List TxAction) : Values :=
  sumValues (mintedValue actions :: requiredInputValues actions)

/-- Total value the required new outputs need. -/
def neededValue (actions : List TxAction) : Values :=
  sumValues ((initOutputs actions).map UnbuiltOutput.values)

/-- Does `hav` cover `need` on every asset entry of `need`? -/
def covers (hav need : Values) : Bool :=
  need.inner.all (fun e => e.2 ≤ hav.get' e.1)

/-- Per-asset shortfall of `hav` against `need` (zero entries dropped). -/
def deficitOf (need hav : Values) : Values :=
  ⟨(need.inner.map (fun e => (e.1, e.2 - hav.get' e.1))).filter
    (fun e => decide (e.2 ≠ 0))⟩

/-- The dominant asset of a shortfall: its first entry's asset. -/
def dominantAsset (v : Values) : Option PolicyId :=
  v.inner.head?.map Prod.fst

/-- Modelled from the spec (4.5 step 2): wallet-input selection -- while the
value in hand does not cover the need, walk the wallet in order and take the
first output holding a positive balance of the current shortfall's dominant
asset (skipped outputs are not revisited); fail with `Balancing` when no
such output remains. -/
def selectWalletInputs : List (Output Nat) → Values → Values →
    Except NauError (List (Output Nat))
  | wallet, hav, need =>
    if covers hav need then Except.ok []
    else
      match dominantAsset (deficitOf need hav) with
      | none => Except.error NauError.Balancing
      | some asset =>
        match wallet with
        | [] => Except.error NauError.Balancing
        | w :: rest =>
          if 1 ≤ w.values.get' asset then
            match selectWalletInputs rest (hav.add w.values) need with
            | Except.error e => Except.error e
            | Except.ok ws => Except.ok (w :: ws)
          else
            selectWalletInputs rest hav need

/-- Modelled from the spec (4.5): `to_transaction` — partition the actions,
select further wallet inputs to cover the required outputs, emit a change
output back to the signer for any positive residue, and assemble the
transaction; selection failure surfaces as the `Balancing` error. -/
def toTransaction (wallet : List (Output Nat)) (signer : PallasAddress)
    (actions : List TxAction) : Except NauError BuiltTx :=
  let supplied := suppliedValue actions
  let needed := neededValue actions
  let availWallet := wallet.filter (fun o => decide (o.id ∉ requiredInputIds actions))
  match selectWalletInputs availWallet supplied needed with
  | Except.error e => Except.error e
  | Except.ok selected =>
    let totalIn := sumValues (supplied :: selected.map Output.values)
    match totalIn.try_subtract needed with
    | Except.error e => Except.error e
    | Except.ok residue =>
      let changeOutputs :=
        match residue with
        | none => []
        | some change => [UnbuiltOutput.Wallet signer change]
      Except.ok
        ⟨scriptSpends actions,
         specificInputIds actions ++ selected.map Output.id,
         initOutputs actions ++ changeOutputs,
         lastValidRange actions⟩

/-- The signer's own wallet outputs, the pool selection draws from. -/
def walletOutputsOf (l : InMemoryLedger) : List (Output Nat) :=
  l.utxos.filter (fun o => o.owner = l.signer)

/-- Modelled from the spec (sections 2, 4.5, 4.6): the whole submission
pipeline of the in-memory ledger client — build and balance the transaction
from the signer's wallet, then validate and commit; the first component is
the engine state after the call. -/
def processActions (l : InMemoryLedger) (actions : List TxAction) :
    InMemoryLedger × Except NauError (List Nat) :=
  match toTransaction (walletOutputsOf l) l.signer actions with
  | Except.error e => (l, Except.error e)
  | Except.ok tx =>
    match issue l tx with
    | Except.error e => (l, Except.error e)
    | Except.ok (l2, h) => (l2, Except.ok h)

/-! ## Claims about the engine and the builder -/

/-- **C2**: a submission that fails (script rejection, balancing failure, or
any other error) leaves the engine state entirely unchanged: the UTXO set is
untouched and `all_outputs_at_address` agrees with its pre-call result at
every address. -/
theorem failed_submission_preserves_ledger (l : InMemoryLedger)
    (actions : List TxAction) (e : NauError)
    (h : (processActions l actions).2 = Except.error e) :
    (processActions l actions).1.utxos = l.utxos ∧
    ∀ addr, allOutputsAt (processActions l actions).1 addr = allOutputsAt l addr := by
  rcases hpa : processActions l actions with ⟨lAfter, r⟩
  rw [hpa] at h
  unfold processActions at hpa
  cases htx : toTransaction (walletOutputsOf l) l.signer actions with
  | error e2 =>
    rw [htx] at hpa
    simp only [Prod.mk.injEq] at hpa
    obtain ⟨h1, _⟩ := hpa
    subst h1
    exact ⟨rfl, fun _ => rfl⟩
  | ok tx =>
    rw [htx] at hpa
    simp only [] at hpa
    cases hiss : issue l tx with
    | error e2 =>
      rw [hiss] at hpa
      simp only [Prod.mk.injEq] at hpa
      obtain ⟨h1, _⟩ := hpa
      subst h1
      exact ⟨rfl, fun _ => rfl⟩
    | ok pr =>
      obtain ⟨l2, hsh⟩ := pr
      rw [hiss] at hpa
      simp only [Prod.mk.injEq] at hpa
      rw [← hpa.2] at h
      simp at h

def c2Addr : PallasAddress :=
  PallasAddress.Shelley (ShelleyPaymentPart.Key [1]) ShelleyDelegationPart.Null

def c2ScriptAddr : PallasAddress :=
  PallasAddress.Shelley (ShelleyPaymentPart.Script [9]) ShelleyDelegationPart.Null

def c2Utxo : Output Nat :=
  Output.Validator ⟨[5], 0⟩ c2ScriptAddr ⟨[(PolicyId.Lovelace, 4)]⟩ 0

def c2Ledger : InMemoryLedger := ⟨[c2Utxo], c2Addr, 6⟩

def c2Actions : List TxAction :=
  [TxAction.RedeemScriptOutput c2Utxo 0 (fun _ _ _ => false)]

/-- **C2 witness**: a redeem attempt against an always-false validator fails
with `ScriptExecution` and leaves the concrete ledger unchanged. -/
theorem failed_submission_preserves_ledger_witness :
    (processActions c2Ledger c2Actions).2 = Except.error NauError.ScriptExecution ∧
    (processActions c2Ledger c2Actions).1.utxos = c2Ledger.utxos ∧
    allOutputsAt (processActions c2Ledger c2Actions).1 c2ScriptAddr =
      allOutputsAt c2Ledger c2ScriptAddr :=
  ⟨rfl,
   (failed_submission_preserves_ledger c2Ledger c2Actions NauError.ScriptExecution rfl).1,
   (failed_submission_preserves_ledger c2Ledger c2Actions
     NauError.ScriptExecution rfl).2 c2ScriptAddr⟩

/-- Total quantity of asset `p` held across a list of wallet outputs. -/
def walletSumQty (p : PolicyId) (ws : List (Output Nat)) : Nat :=
  (ws.map (fun o => entSum p o.values.inner)).sum

/-- Selection cannot succeed when even the whole remaining wallet cannot
cover the shortfall on some asset. -/
theorem selectWalletInputs_insufficient (need : Values) (p : PolicyId) :
    ∀ (wallet : List (Output Nat)) (hav : Values),
      hav.get' p + walletSumQty p wallet < need.get' p →
      selectWalletInputs wallet hav need = Except.error NauError.Balancing := by
  intro wallet
  induction wallet with
  | nil =>
    intro hav h
    have hcov : ¬ (covers hav need = true) := by
      intro hc
      have := get'_le_of_all_le hav need hc p
      simp only [walletSumQty, List.map_nil, List.sum_nil] at h
      omega
    rw [selectWalletInputs]
    rw [if_neg hcov]
    cases hdom : dominantAsset (deficitOf need hav) with
    | none => rfl
    | some asset => rfl
  | cons w rest ih =>
    intro hav h
    have hsum : walletSumQty p (w :: rest) =
        entSum p w.values.inner + walletSumQty p rest := by
      simp [walletSumQty]
    have hcov : ¬ (covers hav need = true) := by
      intro hc
      have := get'_le_of_all_le hav need hc p
      omega
    rw [selectWalletInputs]
    rw [if_neg hcov]
    cases hdom : dominantAsset (deficitOf need hav) with
    | none => rfl
    | some asset =>
      show (if 1 ≤ w.values.get' asset then
          match selectWalletInputs rest (hav.add w.values) need with
          | Except.error e => Except.error e
          | Except.ok ws => Except.ok (w :: ws)
        else selectWalletInputs rest hav need) = Except.error NauError.Balancing
      by_cases htake : 1 ≤ w.values.get' asset
      · rw [if_pos htake]
        rw [ih (hav.add w.values) (by rw [get'_add]; omega)]
      · rw [if_neg htake]
        exact ih hav (by omega)

/-- **C7**: turning an action set into a transaction fails with the
`Balancing` error whenever, on some asset, the required outputs' total
exceeds what the required inputs and mints supply plus everything the
selectable wallet outputs hold — no further wallet input can cover the
deficit. -/
theorem balancing_insufficient_fails (wallet : List (Output Nat))
    (signer : PallasAddress) (actions : List TxAction) (p : PolicyId)
    (h : (suppliedValue actions).get' p +
      walletSumQty p
        (wallet.filter (fun o => decide (o.id ∉ requiredInputIds actions))) <
      (neededValue actions).get' p) :
    toTransaction wallet signer actions = Except.error NauError.Balancing := by
  simp only [toTransaction]
  rw [selectWalletInputs_insufficient (neededValue actions) p
    (wallet.filter (fun o => decide (o.id ∉ requiredInputIds actions)))
    (suppliedValue actions) h]

def c7Addr : PallasAddress :=
  PallasAddress.Shelley (ShelleyPaymentPart.Key [3]) ShelleyDelegationPart.Null

def c7ScriptAddr : PallasAddress :=
  PallasAddress.Shelley (ShelleyPaymentPart.Script [8]) ShelleyDelegationPart.Null

def c7Actions : List TxAction :=
  [TxAction.InitScriptOutput c7ScriptAddr 0 ⟨[(PolicyId.Lovelace, 5)]⟩]

/-- **C7 witness**: an empty wallet cannot fund a 5-Lovelace script output. -/
theorem balancing_insufficient_fails_witness :
    (suppliedValue c7Actions).get' PolicyId.Lovelace +
      walletSumQty PolicyId.Lovelace
        (([] : List (Output Nat)).filter
          (fun o => decide (o.id ∉ requiredInputIds c7Actions))) <
      (neededValue c7Actions).get' PolicyId.Lovelace ∧
    toTransaction [] c7Addr c7Actions = Except.error NauError.Balancing :=
  ⟨by decide,
   balancing_insufficient_fails [] c7Addr c7Actions PolicyId.Lovelace (by decide)⟩

/-! ## OutputId uniqueness along successful submissions -/

/-- The ids currently in the UTXO set. -/
def ledgerIds (l : InMemoryLedger) : List OutputId := l.utxos.map Output.id

/-- An id whose simulated hash was minted before counter `c`. -/
def idBound (oid : OutputId) (c : Nat) : Prop :=
  ∃ k, oid.tx_hash = [k] ∧ k < c

/-- Engine-state invariant: no duplicate ids, and every id was minted from
an already-spent counter value. -/
def ledgerWf (l : InMemoryLedger) : Prop :=
  (ledgerIds l).Nodup ∧ ∀ oid ∈ ledgerIds l, idBound oid l.txCounter

/-- One successful `issue` call between two engine states. -/
def StepRel (l l2 : InMemoryLedger) : Prop :=
  ∃ tx hs, issue l tx = Except.ok (l2, hs)

/-- Run a sequence of submissions, returning the state after each successful
one; `none` as soon as any submission fails. -/
def runIssues : InMemoryLedger → List BuiltTx → Option (List InMemoryLedger)
  | _, [] => some []
  | l, tx :: rest =>
    match issue l tx with
    | Except.error _ => none
    | Except.ok (l2, _) => (runIssues l2 rest).map (fun ls => l2 :: ls)

theorem commitOne_id (tx_hash : List Nat) (index : Nat) (o : UnbuiltOutput Nat) :
    (commitOne tx_hash index o).id = ⟨tx_hash, index⟩ := by
  cases o <;> rfl

theorem ledgerIds_commitTx (l : InMemoryLedger) (tx : BuiltTx) :
    ledgerIds (commitTx l tx) =
      (l.utxos.filter (fun o => decide (o.id ∉
        (tx.spends.map (fun s => s.output_id) ++ tx.walletSpends)))).map Output.id ++
      (List.range tx.outputs.length).map (fun i => OutputId.mk [l.txCounter] i) := by
  unfold commitTx ledgerIds
  simp only [List.map_append]
  congr 1
  rw [List.map_map]
  have h1 : (Output.id ∘ fun e : Nat × UnbuiltOutput Nat => commitOne [l.txCounter] e.1 e.2)
      = fun e : Nat × UnbuiltOutput Nat => OutputId.mk [l.txCounter] e.1 := by
    funext e
    exact commitOne_id _ _ _
  rw [h1]
  rw [show (fun e : Nat × UnbuiltOutput Nat => OutputId.mk [l.txCounter] e.1)
      = (fun i => OutputId.mk [l.txCounter] i) ∘ Prod.fst from rfl]
  rw [← List.map_map, List.enum_map_fst]

theorem commitTx_txCounter (l : InMemoryLedger) (tx : BuiltTx) :
    (commitTx l tx).txCounter = l.txCounter + 1 := rfl

theorem ledgerWf_commitTx (l : InMemoryLedger) (tx : BuiltTx) (hwf : ledgerWf l) :
    ledgerWf (commitTx l tx) := by
  obtain ⟨hnd, hbound⟩ := hwf
  have hsub : List.Sublist
      ((l.utxos.filter (fun o => decide (o.id ∉
        (tx.spends.map (fun s => s.output_id) ++ tx.walletSpends)))).map Output.id)
      (l.utxos.map Output.id) :=
    (List.filter_sublist _).map _
  constructor
  · rw [ledgerIds_commitTx]
    apply List.Nodup.append
    · exact hnd.sublist hsub
    · apply List.Nodup.map
      · intro i j hij
        simpa using hij
      · exact List.nodup_range _
    · intro oid hA hB
      obtain ⟨k, hk, hklt⟩ := hbound oid (hsub.subset hA)
      simp only [List.mem_map, List.mem_range] at hB
      obtain ⟨i, _, hoid⟩ := hB
      rw [← hoid] at hk
      simp only [List.cons.injEq] at hk
      omega
  · intro oid hmem
    rw [ledgerIds_commitTx] at hmem
    rw [commitTx_txCounter]
    rcases List.mem_append.mp hmem with hA | hB
    · obtain ⟨k, hk, hklt⟩ := hbound oid (hsub.subset hA)
      exact ⟨k, hk, by omega⟩
    · simp only [List.mem_map, List.mem_range] at hB
      obtain ⟨i, _, hoid⟩ := hB
      refine ⟨l.txCounter, ?_, by omega⟩
      rw [← hoid]

theorem issue_ok_eq (l : InMemoryLedger) (tx : BuiltTx) (l2 : InMemoryLedger)
    (hs : List Nat) (h : issue l tx = Except.ok (l2, hs)) : l2 = commitTx l tx := by
  unfold issue at h
  cases h1 : validateSpends l tx.spends with
  | error e =>
    rw [h1] at h
    simp at h
  | ok u =>
    rw [h1] at h
    cases h2 : validateWalletSpends l tx.walletSpends with
    | error e =>
      rw [h2] at h
      simp at h
    | ok u2 =>
      rw [h2] at h
      simp only [Except.ok.injEq, Prod.mk.injEq] at h
      exact h.1.symm

theorem step_wf (l l2 : InMemoryLedger) (h : StepRel l l2) (hwf : ledgerWf l) :
    ledgerWf l2 ∧ l.txCounter ≤ l2.txCounter := by
  obtain ⟨tx, hs, hiss⟩ := h
  have he := issue_ok_eq l tx l2 hs hiss
  subst he
  refine ⟨ledgerWf_commitTx l tx hwf, ?_⟩
  rw [commitTx_txCounter]
  omega

theorem step_absent (l l2 : InMemoryLedger) (h : StepRel l l2) (oid : OutputId)
    (hb : idBound oid l.txCounter) (habs : oid ∉ ledgerIds l) :
    oid ∉ ledgerIds l2 ∧ idBound oid l2.txCounter := by
  obtain ⟨tx, hs, hiss⟩ := h
  have he := issue_ok_eq l tx l2 hs hiss
  subst he
  obtain ⟨k, hk, hklt⟩ := hb
  constructor
  · rw [ledgerIds_commitTx]
    intro hmem
    rcases List.mem_append.mp hmem with hA | hB
    · apply habs
      have hsub : List.Sublist
          ((l.utxos.filter (fun o => decide (o.id ∉
            (tx.spends.map (fun s => s.output_id) ++ tx.walletSpends)))).map Output.id)
          (l.utxos.map Output.id) :=
        (List.filter_sublist _).map _
      exact hsub.subset hA
    · simp only [List.mem_map, List.mem_range] at hB
      obtain ⟨i, _, hoid⟩ := hB
      rw [← hoid] at hk
      simp only [List.cons.injEq] at hk
      omega
  · rw [commitTx_txCounter]
    exact ⟨k, hk, by omega⟩

theorem runIssues_chain (txs : List BuiltTx) :
    ∀ (l0 : InMemoryLedger) (ls : List InMemoryLedger),
      runIssues l0 txs = some ls → List.Chain' StepRel (l0 :: ls) := by
  induction txs with
  | nil =>
    intro l0 ls h
    unfold runIssues at h
    simp only [Option.some.injEq] at h
    rw [← h]
    simp
  | cons tx rest ih =>
    intro l0 ls h
    unfold runIssues at h
    cases hiss : issue l0 tx with
    | error e =>
      rw [hiss] at h
      simp at h
    | ok pr =>
      obtain ⟨l2, hs⟩ := pr
      rw [hiss] at h
      simp only [] at h
      cases hrun : runIssues l2 rest with
      | none =>
        rw [hrun] at h
        simp at h
      | some ls2 =>
        rw [hrun] at h
        simp at h
        subst h
        rw [List.chain'_cons]
        exact ⟨⟨tx, hs, hiss⟩, ih l2 ls2 hrun⟩

theorem chain_wf : ∀ (t : List InMemoryLedger) (l : InMemoryLedger),
    List.Chain' StepRel (l :: t) → ledgerWf l → ∀ l2 ∈ t, ledgerWf l2 := by
  intro t
  induction t with
  | nil =>
    intro l _ _ l2 h2
    simp at h2
  | cons lb t2 ih =>
    intro l hch hwf l2 h2
    rw [List.chain'_cons] at hch
    have hwfb := (step_wf l lb hch.1 hwf).1
    rcases List.mem_cons.mp h2 with h2 | h2
    · rw [h2]; exact hwfb
    · exact ih lb hch.2 hwfb l2 h2

theorem chain_absent : ∀ (t : List InMemoryLedger) (l : InMemoryLedger) (oid : OutputId),
    List.Chain' StepRel (l :: t) → idBound oid l.txCounter → oid ∉ ledgerIds l →
    ∀ l2 ∈ t, oid ∉ ledgerIds l2 := by
  intro t
  induction t with
  | nil =>
    intro l oid _ _ _ l2 h2
    simp at h2
  | cons lb t2 ih =>
    intro l oid hch hb habs l2 h2
    rw [List.chain'_cons] at hch
    obtain ⟨habs2, hb2⟩ := step_absent l lb hch.1 oid hb habs
    rcases List.mem_cons.mp h2 with h2 | h2
    · rw [h2]; exact habs2
    · exact ih lb oid hch.2 hb2 habs2 l2 h2

theorem getD_cons_drop : ∀ (t : List α) (n : Nat) (d : α), n < t.length →
    t.drop n = t.getD n d :: t.drop (n + 1) := by
  intro t
  induction t with
  | nil =>
    intro n d hn
    simp at hn
  | cons x xs ih =>
    intro n d hn
    cases n with
    | zero => rfl
    | succ m =>
      simp only [List.length_cons] at hn
      have := ih m d (by omega)
      simpa using this

theorem getD_mem : ∀ (t : List α) (n : Nat) (d : α), n < t.length → t.getD n d ∈ t := by
  intro t
  induction t with
  | nil =>
    intro n d hn
    simp at hn
  | cons x xs ih =>
    intro n d hn
    cases n with
    | zero => exact List.mem_cons_self _ _
    | succ m =>
      simp only [List.length_cons] at hn
      exact List.mem_cons_of_mem _ (ih m d (by omega))

theorem chain_drop {R : α → α → Prop} :
    ∀ (n : Nat) (t : List α), List.Chain' R t → List.Chain' R (t.drop n) := by
  intro n
  induction n with
  | zero => intro t h; exact h
  | succ m ih =>
    intro t h
    rw [← List.tail_drop]
    exact (ih t h).tail

/-- **C3**: along any sequence of successful `issue` calls, every reached
UTXO set is free of duplicate `OutputId`s, and an id consumed at some step
(present before it, absent after it) never appears again in any later
state — consumed ids are never reused or reinserted. -/
theorem output_ids_never_reused (l0 : InMemoryLedger) (txs : List BuiltTx)
    (ls : List InMemoryLedger) (hwf : ledgerWf l0)
    (hrun : runIssues l0 txs = some ls) :
    (∀ l ∈ l0 :: ls, (ledgerIds l).Nodup) ∧
    (∀ i, i + 1 < (l0 :: ls).length → ∀ oid,
      oid ∈ ledgerIds ((l0 :: ls).getD i l0) →
      oid ∉ ledgerIds ((l0 :: ls).getD (i + 1) l0) →
      ∀ l2 ∈ (l0 :: ls).drop (i + 1), oid ∉ ledgerIds l2) := by
  have hch := runIssues_chain txs l0 ls hrun
  have hallwf : ∀ l ∈ l0 :: ls, ledgerWf l := by
    intro l hl
    rcases List.mem_cons.mp hl with h | h
    · rw [h]; exact hwf
    · exact chain_wf ls l0 hch hwf l h
  refine ⟨fun l hl => (hallwf l hl).1, ?_⟩
  intro i hi oid hin hout
  have hi0 : i < (l0 :: ls).length := by omega
  have hsplit1 : (l0 :: ls).drop i =
      (l0 :: ls).getD i l0 :: (l0 :: ls).drop (i + 1) :=
    getD_cons_drop (l0 :: ls) i l0 hi0
  have hsplit2 : (l0 :: ls).drop (i + 1) =
      (l0 :: ls).getD (i + 1) l0 :: (l0 :: ls).drop (i + 2) :=
    getD_cons_drop (l0 :: ls) (i + 1) l0 hi
  have hstep : StepRel ((l0 :: ls).getD i l0) ((l0 :: ls).getD (i + 1) l0) := by
    have hchd := chain_drop i (l0 :: ls) hch
    rw [hsplit1, hsplit2] at hchd
    exact (List.chain'_cons.mp hchd).1
  have hwfi : ledgerWf ((l0 :: ls).getD i l0) :=
    hallwf _ (getD_mem (l0 :: ls) i l0 hi0)
  have hb : idBound oid ((l0 :: ls).getD i l0).txCounter := hwfi.2 oid hin
  have hmono := (step_wf _ _ hstep hwfi).2
  have hb2 : idBound oid ((l0 :: ls).getD (i + 1) l0).txCounter := by
    obtain ⟨k, hk1, hk2⟩ := hb
    exact ⟨k, hk1, by omega⟩
  have hch2 : List.Chain' StepRel
      ((l0 :: ls).getD (i + 1) l0 :: (l0 :: ls).drop (i + 2)) := by
    rw [← hsplit2]
    exact chain_drop (i + 1) (l0 :: ls) hch
  have htail := chain_absent ((l0 :: ls).drop (i + 2)) ((l0 :: ls).getD (i + 1) l0)
    oid hch2 hb2 hout
  intro l2 h2
  rw [hsplit2] at h2
  rcases List.mem_cons.mp h2 with h2 | h2
  · rw [h2]; exact hout
  · exact htail l2 h2

def c3Addr : PallasAddress :=
  PallasAddress.Shelley (ShelleyPaymentPart.Key [0]) ShelleyDelegationPart.Null

def c3Tx1 : BuiltTx :=
  ⟨[], [], [UnbuiltOutput.Wallet c3Addr ⟨[(PolicyId.Lovelace, 5)]⟩], ⟨none, none⟩⟩

def c3Tx2 : BuiltTx := ⟨[], [⟨[0], 0⟩], [], ⟨none, none⟩⟩

def c3L0 : InMemoryLedger := ⟨[], c3Addr, 0⟩

def c3L1 : InMemoryLedger :=
  ⟨[Output.Wallet ⟨[0], 0⟩ c3Addr ⟨[(PolicyId.Lovelace, 5)]⟩], c3Addr, 1⟩

def c3L2 : InMemoryLedger := ⟨[], c3Addr, 2⟩

/-- **C3 witness**: produce an output, then consume it; its id never
returns. -/
theorem output_ids_never_reused_witness :
    ledgerWf c3L0 ∧
    runIssues c3L0 [c3Tx1, c3Tx2] = some [c3L1, c3L2] ∧
    (ledgerIds c3L1).Nodup ∧
    OutputId.mk [0] 0 ∉ ledgerIds c3L2 := by
  have hwf : ledgerWf c3L0 := by
    constructor
    · simp [ledgerIds, c3L0]
    · simp [ledgerIds, c3L0]
  have T := output_ids_never_reused c3L0 [c3Tx1, c3Tx2] [c3L1, c3L2] hwf rfl
  refine ⟨hwf, rfl, T.1 c3L1 (by simp), ?_⟩
  exact T.2 1 (by simp) (OutputId.mk [0] 0) (by decide) (by decide) c3L2 (by simp)
